import Mathlib

/-!
Shallow embedding of the ICT pattern-detection and scenario-synthesis core of
the robinhood-performance-dash repository, together with theorems checking the
natural-language specification against it.

Prices are modelled as rationals (`ℚ`); Python floats in the source are treated
as exact arithmetic.  Timestamps and human-readable reason strings, which no
checked property depends on, are omitted from the embedded records.
-/

/-- One OHLCV bar (`open`/`high`/`low`/`close`; volume is unused by the
embedded detectors).  Mirrors the rows of the pandas DataFrame. -/
structure Bar where
  open_ : ℚ
  high : ℚ
  low : ℚ
  close : ℚ
deriving DecidableEq

/-- Default bar used as the out-of-range fallback of `List.getD`; every access
in the development is within bounds. -/
def defaultBar : Bar := ⟨0, 0, 0, 0⟩

/-- `FVG` record from `app/schemas/trading.py` (timestamp omitted). -/
structure FVG where
  high : ℚ
  low : ℚ
  gap_size : ℚ
  direction : String
  filled : Bool
  mitigated : Bool
  invalidated : Bool
deriving DecidableEq

/-- The body of the `for i in range(2, len(df))` loop of `detect_fvgs`
(`app/services/ict/fvg.py`): the candidate FVG emitted at index `i` of the
tail `d`, with its mitigation/invalidation flags computed from the bars
strictly after the forming triple. -/
def fvgAt (d : List Bar) (i : ℕ) : Option FVG :=
  let c1 := d.getD (i - 2) defaultBar
  let c3 := d.getD i defaultBar
  let rest := d.drop (i + 1)
  if c1.high < c3.low then
    let gapHigh := c3.low
    let gapLow := c1.high
    let inval := rest.any (fun b => b.close < gapLow)
    some { high := gapHigh, low := gapLow, gap_size := gapHigh - gapLow,
           direction := "bullish", filled := inval,
           mitigated := rest.any (fun b => b.low ≤ gapHigh), invalidated := inval }
  else if c3.high < c1.low then
    let gapHigh := c1.low
    let gapLow := c3.high
    let inval := rest.any (fun b => gapHigh < b.close)
    some { high := gapHigh, low := gapLow, gap_size := gapHigh - gapLow,
           direction := "bearish", filled := inval,
           mitigated := rest.any (fun b => gapLow ≤ b.high), invalidated := inval }
  else none

/-- `detect_fvgs(df, lookback=100)` from `app/services/ict/fvg.py`.
Returns `[]` below 10 bars, then scans triples `(i-2, i-1, i)` over the last
`lookback` bars. -/
def detectFVGs (bars : List Bar) (lookback : ℕ) : List FVG :=
  if bars.length < 10 then []
  else
    let d := bars.drop (bars.length - lookback)
    (List.range' 2 (d.length - 2)).filterMap (fvgAt d)

/-- The explicit 3-bar sequence of the specification's Example 1 (middle bar
chosen inside the stated gap; only bars 1 and 3 matter to the detector). -/
def exampleBars3 : List Bar :=
  [⟨mkRat 99 10, 10, mkRat 49 5, mkRat 99 10⟩,
   ⟨10, mkRat 52 5, mkRat 99 10, mkRat 51 5⟩,
   ⟨11, 16, mkRat 21 2, 12⟩]

/-- `PlanStatus` values of `_validate_plan_status`
(`app/services/langchain/coach.py`): `WAITING, ACTIVE, INVALIDATED, MISSED,
N/A` per its docstring. -/
inductive PlanStatus where
  | NA
  | INVALIDATED
  | ACTIVE
  | WAITING
  | MISSED
deriving DecidableEq

/-- The fields `_validate_plan_status` reads from the stored plan dict; a
missing key (`dict.get`) is `none`. -/
structure Plan where
  entry_high : Option ℚ
  entry_low : Option ℚ
  stop_loss : Option ℚ
  invalidation : Option ℚ
deriving DecidableEq

/-- Python truthiness of an optional numeric value: `None` and `0` are falsy. -/
def qTruthy : Option ℚ → Bool
  | none => false
  | some x => decide (x ≠ 0)

/-- `_validate_plan_status(plan, current_price, direction)` from
`app/services/langchain/coach.py`.  `plan = none` models a falsy plan;
`isLong` models `direction == "long"`.  The result is `none` exactly when the
Python code would raise a `TypeError` (comparison of the price with a missing
`invalidation` after the truthiness guard passed); reason strings are
omitted. -/
def validatePlanStatus (plan : Option Plan) (price : ℚ) (isLong : Bool) :
    Option PlanStatus :=
  match plan with
  | none => some .NA
  | some p =>
    if !(qTruthy p.entry_high && qTruthy p.entry_low && qTruthy p.stop_loss) then
      some .NA
    else
      match p.entry_high, p.entry_low, p.stop_loss with
      | some eh, some el, some sl =>
        match p.invalidation with
        | none => none
        | some inv =>
          if isLong then
            if price ≤ inv then some .INVALIDATED
            else if price ≤ sl then some .INVALIDATED
            else if el ≤ price ∧ price ≤ eh then some .ACTIVE
            else if eh < price then some .WAITING
            else some .ACTIVE
          else
            if inv ≤ price then some .INVALIDATED
            else if sl ≤ price then some .INVALIDATED
            else if el ≤ price ∧ price ≤ eh then some .ACTIVE
            else if price < el then some .WAITING
            else some .ACTIVE
      | _, _, _ => some .NA

/-- Dealing-range record produced by `_step3_dealing_range`
(`app/services/ict/pre_market_routine.py`); `source` omitted. -/
structure DealingRange where
  high : ℚ
  low : ℚ
  equilibrium : ℚ
  premium : ℚ
  discount : ℚ
deriving DecidableEq

/-- The zone computation of `_step3_dealing_range`: given the chosen `high`
and `low`, `equilibrium/premium/discount` at the 50%/61.8%/38.2%
retracements. -/
def dealingRangeZones (high low : ℚ) : DealingRange :=
  let rangeSize := high - low
  { high := high, low := low,
    equilibrium := low + rangeSize * (mkRat 50 100),
    premium := low + rangeSize * (mkRat 618 1000),
    discount := low + rangeSize * (mkRat 382 1000) }

/-- `BiasType` enum from `app/models/trading.py`. -/
inductive BiasTy where
  | BULLISH
  | BEARISH
  | NEUTRAL
deriving DecidableEq

/-- `OrderBlock` record from `app/schemas/trading.py` (timestamp omitted). -/
structure OrderBlock where
  high : ℚ
  low : ℚ
  direction : String
  strength : ℚ
deriving DecidableEq

/-- `_step5_day_type` from `app/services/ict/pre_market_routine.py`: the
scoring and classification; `sweepTypes` is the list of `s['type']` values of
`session_data['sweeps']`.  Only the returned day-type label is modelled (the
paired reasoning string is free text). -/
def step5DayType (htfBias : BiasTy) (sweepTypes : List String)
    (orderBlocks : List OrderBlock) (fvgs : List FVG) : String :=
  let bslSwept := sweepTypes.any (· == "BSL")
  let sslSwept := sweepTypes.any (· == "SSL")
  let biasScores : ℕ × ℕ := if htfBias ≠ BiasTy.NEUTRAL then (2, 0) else (0, 2)
  let sweepScores : ℕ × ℕ × ℕ :=
    if bslSwept && sslSwept then (0, 3, 0)
    else if bslSwept || sslSwept then (2, 0, 0)
    else (0, 0, 2)
  let strongOBs := orderBlocks.filter (fun ob => decide (mkRat 7 10 < ob.strength))
  let unfilledFVGs := fvgs.filter (fun f => !f.filled)
  let trendScore := biasScores.1 + sweepScores.1 +
    (if 2 < unfilledFVGs.length then 1 else 0)
  let reversalScore := sweepScores.2.1 + (if 0 < strongOBs.length then 1 else 0)
  let consolidationScore := biasScores.2 + sweepScores.2.2
  if max reversalScore consolidationScore + 1 ≤ trendScore then "trend"
  else if max trendScore consolidationScore + 1 ≤ reversalScore then "reversal"
  else "consolidation"

/-- `list[-n:]` / `df.tail(n)`: the last `n` elements. -/
def lastN {α : Type} (n : ℕ) (l : List α) : List α := l.drop (l.length - n)

/-- `_identify_swings(data, mode, window=5)` from
`app/services/ict/structure.py`: prices that dominate (resp. are dominated by)
the `window` bars on each side. -/
def identifySwings (data : List ℚ) (isHigh : Bool) (window : ℕ) : List ℚ :=
  (List.range' window (data.length - 2 * window)).filterMap (fun i =>
    let x := data.getD i 0
    let seg1 := (data.drop (i - window)).take window
    let seg2 := (data.drop (i + 1)).take window
    if isHigh then
      if seg1.all (fun y => decide (y ≤ x)) && seg2.all (fun y => decide (y ≤ x))
      then some x else none
    else
      if seg1.all (fun y => decide (x ≤ y)) && seg2.all (fun y => decide (x ≤ y))
      then some x else none)

/-- Head-seeded maximum of a price list (`pandas.Series.max` on a nonempty
series; `0` for the empty list, which never occurs at the call sites). -/
def listMax : List ℚ → ℚ
  | [] => 0
  | x :: xs => xs.foldl max x

/-- Head-seeded minimum of a price list (`pandas.Series.min`). -/
def listMin : List ℚ → ℚ
  | [] => 0
  | x :: xs => xs.foldl min x

/-- `_is_ranging(df, threshold=0.03)` from `app/services/ict/structure.py`. -/
def isRanging (bars : List Bar) : Bool :=
  let recent := lastN 30 bars
  let rangeHigh := listMax (recent.map Bar.high)
  let rangeLow := listMin (recent.map Bar.low)
  decide ((rangeHigh - rangeLow) / rangeLow ≤ mkRat 3 100)

/-- `all(x[i] < x[i+1] for consecutive pairs)`: strictly increasing. -/
def strictlyIncreasing : List ℚ → Bool
  | a :: b :: rest => decide (a < b) && strictlyIncreasing (b :: rest)
  | _ => true

/-- `all(x[i] > x[i+1] for consecutive pairs)`: strictly decreasing. -/
def strictlyDecreasing : List ℚ → Bool
  | a :: b :: rest => decide (b < a) && strictlyDecreasing (b :: rest)
  | _ => true

/-- `analyze_market_structure(df)` from `app/services/ict/structure.py`. -/
def analyzeMarketStructure (bars : List Bar) : String :=
  if bars.length < 30 then "insufficient_data"
  else
    let swingHighs := identifySwings (bars.map Bar.high) true 5
    let swingLows := identifySwings (bars.map Bar.low) false 5
    let recentHighs := if 5 ≤ swingHighs.length then lastN 5 swingHighs else swingHighs
    let recentLows := if 5 ≤ swingLows.length then lastN 5 swingLows else swingLows
    if 2 ≤ recentHighs.length ∧ 2 ≤ recentLows.length ∧
        strictlyIncreasing recentHighs ∧ strictlyIncreasing recentLows then
      "higher_highs_higher_lows"
    else if 2 ≤ recentHighs.length ∧ 2 ≤ recentLows.length ∧
        strictlyIncreasing recentHighs then
      "higher_highs"
    else if 2 ≤ recentHighs.length ∧ 2 ≤ recentLows.length ∧
        strictlyDecreasing recentHighs ∧ strictlyDecreasing recentLows then
      "lower_highs_lower_lows"
    else if 2 ≤ recentHighs.length ∧ 2 ≤ recentLows.length ∧
        strictlyDecreasing recentLows then
      "lower_lows"
    else if isRanging bars then "ranging"
    else "choppy"

/-- `_obs_overlap(ob1, ob2)` from `app/services/ict/order_blocks.py`:
`not (ob1.high < ob2.low or ob1.low > ob2.high)`. -/
def obsOverlap (ob1 ob2 : OrderBlock) : Bool :=
  !(decide (ob1.high < ob2.low) || decide (ob2.high < ob1.low))

/-- Descending-strength comparison used by
`sorted(order_blocks, key=lambda x: x.strength, reverse=True)`. -/
def strengthDesc (a b : OrderBlock) : Prop := b.strength ≤ a.strength

instance : DecidableRel strengthDesc :=
  fun a b => inferInstanceAs (Decidable (b.strength ≤ a.strength))

instance : IsTotal OrderBlock strengthDesc :=
  ⟨fun a b => le_total b.strength a.strength⟩

instance : IsTrans OrderBlock strengthDesc :=
  ⟨fun _ _ _ h1 h2 => le_trans h2 h1⟩

/-- The greedy filtering loop of `_remove_overlapping_obs`: keep a candidate
iff it overlaps no block already kept. -/
def removeOverlappingLoop : List OrderBlock → List OrderBlock → List OrderBlock
  | [], filtered => filtered
  | ob :: rest, filtered =>
    if filtered.any (fun e => obsOverlap ob e) then removeOverlappingLoop rest filtered
    else removeOverlappingLoop rest (filtered ++ [ob])

/-- `_remove_overlapping_obs(order_blocks)` from
`app/services/ict/order_blocks.py`: sort by strength descending (stable), then
greedily keep non-overlapping blocks. -/
def removeOverlappingObs (orderBlocks : List OrderBlock) : List OrderBlock :=
  removeOverlappingLoop (List.insertionSort strengthDesc orderBlocks) []

/-- `LiquidityZone` record from `app/schemas/trading.py`. -/
structure LiquidityZone where
  price : ℚ
  zone_type : String
  strength : ℚ
deriving DecidableEq

/-- Ascending-price comparison used by
`sorted(zones, key=lambda x: x.price)`. -/
def priceAsc (a b : LiquidityZone) : Prop := a.price ≤ b.price

instance : DecidableRel priceAsc :=
  fun a b => inferInstanceAs (Decidable (a.price ≤ b.price))

instance : IsTotal LiquidityZone priceAsc :=
  ⟨fun a b => le_total a.price b.price⟩

instance : IsTrans LiquidityZone priceAsc :=
  ⟨fun _ _ _ h1 h2 => le_trans h1 h2⟩

/-- The 0.2%-relative-distance test of `_merge_nearby_zones`:
`abs(zone.price - last_merged.price) / last_merged.price <= tolerance`. -/
def zonesClose (z lastMerged : LiquidityZone) : Bool :=
  decide (|z.price - lastMerged.price| / lastMerged.price ≤ mkRat 2 1000)

/-- The folding loop of `_merge_nearby_zones`: `lastMerged` is `merged[-1]`;
a close same-type zone replaces it when strictly stronger, otherwise is
dropped; any other zone is appended. -/
def mergeRun (lastMerged : LiquidityZone) :
    List LiquidityZone → List LiquidityZone
  | [] => [lastMerged]
  | z :: rest =>
    if zonesClose z lastMerged && (z.zone_type == lastMerged.zone_type) then
      if lastMerged.strength < z.strength then mergeRun z rest
      else mergeRun lastMerged rest
    else lastMerged :: mergeRun z rest

/-- `_merge_nearby_zones(zones, tolerance=0.002)` from
`app/services/ict/liquidity.py`. -/
def mergeNearbyZones (zones : List LiquidityZone) : List LiquidityZone :=
  match List.insertionSort priceAsc zones with
  | [] => []
  | z :: rest => mergeRun z rest

/-- Round-half-to-even on exact rationals: the value of Python's built-in
`round` on an exactly representable argument. -/
def roundHalfEven (x : ℚ) : ℤ :=
  let f := ⌊x⌋
  let frac := x - f
  if frac < mkRat 1 2 then f
  else if mkRat 1 2 < frac then f + 1
  else if f % 2 = 0 then f else f + 1

/-- Python's `round(x, 2)` on exact rationals. -/
def round2 (x : ℚ) : ℚ := (roundHalfEven (x * 100) : ℚ) / 100

/-- `_is_statistically_reachable(target_price, current_price, adr)` from
`app/services/ict/pre_market_routine.py`. -/
def isStatisticallyReachable (targetPrice currentPrice adr : ℚ) : Bool :=
  if adr ≤ 0 then true
  else if adr * (mkRat 1 2) < |targetPrice - currentPrice| then false
  else true

/-- Python's `max(fvgs, key=lambda x: x.high)` (first maximal element),
as an `Option` for the empty list. -/
def maxByHigh : List FVG → Option FVG
  | [] => none
  | f :: rest =>
    match maxByHigh rest with
    | none => some f
    | some m => if f.high < m.high then some m else some f

/-- Python's `min(fvgs, key=lambda x: x.low)` (first minimal element). -/
def minByLow : List FVG → Option FVG
  | [] => none
  | f :: rest =>
    match minByLow rest with
    | none => some f
    | some m => if m.low < f.low then some m else some f

/-- One fuelled unfolding of the `while len(targets) < 3:
targets.append(targets[-1] + step)` padding loop of the scenario builders;
each pass grows the list by one element, so fuel 3 runs the loop to
completion from any start (the empty list, on which Python would raise,
yields `[]`). -/
def padLoop (step : ℚ) : ℕ → List ℚ → List ℚ
  | 0, l => l
  | fuel + 1, l =>
    if 3 ≤ l.length then l
    else
      match l.getLast? with
      | none => []
      | some x => padLoop step fuel (l ++ [x + step])

/-- The `while len(targets) < 3: targets.append(targets[-1] + 1.0)` padding of
`_build_long_scenario`. -/
def padTargetsUp (l : List ℚ) : List ℚ := padLoop 1 3 l

/-- The `while len(targets) < 3: targets.append(targets[-1] - 1.0)` padding of
`_build_short_scenario`. -/
def padTargetsDown (l : List ℚ) : List ℚ := padLoop (-1) 3 l

/-- Descending comparison used by `sorted(valid_targets, reverse=True)`. -/
def qDesc (a b : ℚ) : Prop := b ≤ a

instance : DecidableRel qDesc := fun a b => inferInstanceAs (Decidable (b ≤ a))

instance : IsTotal ℚ qDesc := ⟨fun a b => le_total b a⟩

instance : IsTrans ℚ qDesc := ⟨fun _ _ _ h1 h2 => le_trans h2 h1⟩

/-- Ascending comparison used by `sorted(valid_targets)`. -/
def qAsc (a b : ℚ) : Prop := a ≤ b

instance : DecidableRel qAsc := fun a b => inferInstanceAs (Decidable (a ≤ b))

instance : IsTotal ℚ qAsc := ⟨fun a b => le_total a b⟩

instance : IsTrans ℚ qAsc := ⟨fun _ _ _ h1 h2 => le_trans h1 h2⟩

/-- The scenario record returned by the Scenario Builder; the `entry_zone`
dict is flattened into `entry_high`/`entry_low`, and the free-text fields
(`entry_conditions`, `entry_type`, `confluence_factors`,
`valid_time_window`) are omitted. -/
structure TradeScenario where
  entry_high : ℚ
  entry_low : ℚ
  stop_loss : ℚ
  targets : List ℚ
  invalidation : ℚ
  risk_reward : ℚ
  setup_quality : String
deriving DecidableEq

/-- Steps 1-2 of `_build_long_scenario`: the selected FVG (ideal first, then
intraday continuation), the `is_continuation` flag and the provisional
`setup_quality`. -/
def longSelection (currentPrice : ℚ) (dr : DealingRange)
    (fvgs : List FVG) (intradayFVGs : List FVG) : Option FVG × Bool × String :=
  let adr : ℚ := 5
  let idealFVGs := fvgs.filter (fun f =>
    (f.direction == "bullish") && !f.invalidated &&
    decide (f.high < dr.equilibrium) &&
    isStatisticallyReachable f.high currentPrice adr)
  if !idealFVGs.isEmpty then
    let mitigatedFVGs := idealFVGs.filter (fun f => f.mitigated)
    if !mitigatedFVGs.isEmpty then (maxByHigh mitigatedFVGs, false, "A")
    else (maxByHigh idealFVGs, false, "A")
  else if !intradayFVGs.isEmpty then
    let continuationFVGs := intradayFVGs.filter (fun f =>
      (f.direction == "bullish") && !f.invalidated && decide (f.high < currentPrice))
    if !continuationFVGs.isEmpty then (maxByHigh continuationFVGs, true, "B")
    else (none, false, "C")
  else (none, false, "C")

/-- Steps 3-4 of `_build_long_scenario`: the market-execution trigger switch
and the entry parameters `(entry_high, entry_low, stop_loss, setup_quality)`,
paired with the `is_continuation` flag. -/
def longEntryParams (currentPrice : ℚ) (dr : DealingRange)
    (fvgs : List FVG) (intradayFVGs : List FVG) : (ℚ × ℚ × ℚ × String) × Bool :=
  let selection := longSelection currentPrice dr fvgs intradayFVGs
  let farFVGs := fvgs.filter (fun f =>
    (f.direction == "bullish") && !f.invalidated && decide (f.high < dr.equilibrium))
  let marketExecutionMode := selection.1.isNone && !farFVGs.isEmpty
  (match selection.1 with
   | some f => (f.high, f.low, f.low - 1, selection.2.2)
   | none =>
     if marketExecutionMode then
       (currentPrice, currentPrice, currentPrice - 2, "C+")
     else
       (dr.discount + 1, dr.discount - 1, dr.discount - 1 - mkRat 5 2, selection.2.2),
   selection.2.1)

/-- The target construction of `_build_long_scenario`: the dealing-range
levels above the entry, else a projected 2R target, sorted ascending and
padded to three by `+1.0` steps. -/
def longTargets (dr : DealingRange) (entryHigh stopLoss : ℚ) : List ℚ :=
  let potentialTargets := [dr.equilibrium, dr.premium, dr.high]
  let validTargets := potentialTargets.filter (fun t => decide (entryHigh < t))
  let validTargets' :=
    if validTargets.isEmpty then [entryHigh + (entryHigh - stopLoss) * 2]
    else validTargets
  padTargetsUp (List.insertionSort qAsc validTargets')

/-- `_build_long_scenario(current_price, htf_bias, dealing_range,
liquidity_data, day_type, fvgs, intraday_fvgs)` from
`app/services/ict/pre_market_routine.py`.  `htf_bias`, `liquidity_data` and
`day_type` feed only the omitted free-text fields; `adr` is the hard-coded
`5.0`. -/
def buildLongScenario (currentPrice : ℚ) (dr : DealingRange)
    (fvgs : List FVG) (intradayFVGs : List FVG) : TradeScenario :=
  let entryParams := (longEntryParams currentPrice dr fvgs intradayFVGs).1
  let isContinuation := (longEntryParams currentPrice dr fvgs intradayFVGs).2
  let entryHigh := entryParams.1
  let entryLow := entryParams.2.1
  let stopLoss := entryParams.2.2.1
  let quality0 := entryParams.2.2.2
  let targets := longTargets dr entryHigh stopLoss
  let invalidation := dr.low - 1
  let risk := entryHigh - stopLoss
  let reward := targets.headD 0 - entryHigh
  let rr := if 0 < risk then reward / risk else 0
  let gradeStep : String × ℚ :=
    if 0 < risk ∧ rr < 1 then ("INVALID", reward)
    else if 0 < risk ∧ rr < 2 then
      if 1 < targets.length then
        let rewardB := targets.getD 1 0 - entryHigh
        if rewardB / risk < mkRat 3 2 then ("C-", rewardB) else (quality0, rewardB)
      else (quality0, reward)
    else (quality0, reward)
  let quality1 := gradeStep.1
  let rewardFinal := gradeStep.2
  let quality2 :=
    if isContinuation ∧ 0 < risk ∧ quality1 ≠ "INVALID" ∧
        (targets.headD 0 - entryHigh) / risk < mkRat 3 2 then "C-"
    else quality1
  let rrFinal := if 0 < risk then rewardFinal / risk else 0
  { entry_high := round2 entryHigh, entry_low := round2 entryLow,
    stop_loss := round2 stopLoss, targets := targets.map round2,
    invalidation := round2 invalidation, risk_reward := round2 rrFinal,
    setup_quality := quality2 }

/-- Steps 1-2 of `_build_short_scenario`, mirroring `longSelection`. -/
def shortSelection (currentPrice : ℚ) (dr : DealingRange)
    (fvgs : List FVG) (intradayFVGs : List FVG) : Option FVG × Bool × String :=
  let adr : ℚ := 5
  let idealFVGs := fvgs.filter (fun f =>
    (f.direction == "bearish") && !f.invalidated &&
    decide (dr.equilibrium < f.low) &&
    isStatisticallyReachable f.low currentPrice adr)
  if !idealFVGs.isEmpty then
    let mitigatedFVGs := idealFVGs.filter (fun f => f.mitigated)
    if !mitigatedFVGs.isEmpty then (minByLow mitigatedFVGs, false, "A")
    else (minByLow idealFVGs, false, "A")
  else if !intradayFVGs.isEmpty then
    let continuationFVGs := intradayFVGs.filter (fun f =>
      (f.direction == "bearish") && !f.invalidated && decide (currentPrice < f.low))
    if !continuationFVGs.isEmpty then (minByLow continuationFVGs, true, "B")
    else (none, false, "C")
  else (none, false, "C")

/-- Steps 3-4 of `_build_short_scenario`, mirroring `longEntryParams`. -/
def shortEntryParams (currentPrice : ℚ) (dr : DealingRange)
    (fvgs : List FVG) (intradayFVGs : List FVG) : (ℚ × ℚ × ℚ × String) × Bool :=
  let selection := shortSelection currentPrice dr fvgs intradayFVGs
  let farFVGs := fvgs.filter (fun f =>
    (f.direction == "bearish") && !f.invalidated && decide (dr.equilibrium < f.low))
  let marketExecutionMode := selection.1.isNone && !farFVGs.isEmpty
  (match selection.1 with
   | some f => (f.high, f.low, f.high + 1, selection.2.2)
   | none =>
     if marketExecutionMode then
       (currentPrice, currentPrice, currentPrice + 2, "C+")
     else
       (dr.premium + 1, dr.premium - 1, dr.premium + 1 + mkRat 5 2, selection.2.2),
   selection.2.1)

/-- The target construction of `_build_short_scenario`: the dealing-range
levels below the entry, else a projected 2R target, sorted descending and
padded to three by `-1.0` steps. -/
def shortTargets (dr : DealingRange) (entryLow stopLoss : ℚ) : List ℚ :=
  let potentialTargets := [dr.equilibrium, dr.discount, dr.low]
  let validTargets := potentialTargets.filter (fun t => decide (t < entryLow))
  let validTargets' :=
    if validTargets.isEmpty then [entryLow - (stopLoss - entryLow) * 2]
    else validTargets
  padTargetsDown (List.insertionSort qDesc validTargets')

/-- `_build_short_scenario(...)` from
`app/services/ict/pre_market_routine.py`, the mirror of the long builder. -/
def buildShortScenario (currentPrice : ℚ) (dr : DealingRange)
    (fvgs : List FVG) (intradayFVGs : List FVG) : TradeScenario :=
  let entryParams := (shortEntryParams currentPrice dr fvgs intradayFVGs).1
  let isContinuation := (shortEntryParams currentPrice dr fvgs intradayFVGs).2
  let entryHigh := entryParams.1
  let entryLow := entryParams.2.1
  let stopLoss := entryParams.2.2.1
  let quality0 := entryParams.2.2.2
  let targets := shortTargets dr entryLow stopLoss
  let invalidation := dr.high + 1
  let risk := stopLoss - entryLow
  let reward := entryLow - targets.headD 0
  let rr := if 0 < risk then reward / risk else 0
  let gradeStep : String × ℚ :=
    if 0 < risk ∧ rr < 1 then ("INVALID", reward)
    else if 0 < risk ∧ rr < 2 then
      if 1 < targets.length then
        let rewardB := entryLow - targets.getD 1 0
        if rewardB / risk < mkRat 3 2 then ("C-", rewardB) else (quality0, rewardB)
      else (quality0, reward)
    else (quality0, reward)
  let quality1 := gradeStep.1
  let rewardFinal := gradeStep.2
  let quality2 :=
    if isContinuation ∧ 0 < risk ∧ quality1 ≠ "INVALID" ∧
        (entryLow - targets.headD 0) / risk < mkRat 3 2 then "C-"
    else quality1
  let rrFinal := if 0 < risk then rewardFinal / risk else 0
  { entry_high := round2 entryHigh, entry_low := round2 entryLow,
    stop_loss := round2 stopLoss, targets := targets.map round2,
    invalidation := round2 invalidation, risk_reward := round2 rrFinal,
    setup_quality := quality2 }

section Proofs

/-- A 10-bar sequence whose first triple carries the gap of the
specification's Example 1, meeting the detector's 10-bar minimum. -/
def exampleBars10 : List Bar :=
  exampleBars3 ++ List.replicate 7 ⟨11, 12, 11, 11⟩

/-- C1, counterexample: on the specification's explicit 3-bar example
sequence the detector emits no FVG at all (the source returns `[]` for any
input shorter than 10 bars), not the promised single bullish FVG. -/
theorem detectFVGs_example3_empty : detectFVGs exampleBars3 100 = [] := by
  rfl

/-- C1, amended: the detector needs at least 10 bars (not 3).  For every
coherent bar sequence of at least 10 bars (within the lookback), every triple
of consecutive bars `(i-2, i-1, i)` with `high[i-2] < low[i]` contributes a
bullish FVG with `low = high[i-2]`, `high = low[i]`,
`gap_size = low[i] - high[i-2]`, and symmetrically a bearish FVG when
`low[i-2] > high[i]`. -/
theorem detectFVGs_scan_triples (bars : List Bar) (lookback : ℕ)
    (h10 : 10 ≤ bars.length) (hlb : bars.length ≤ lookback)
    (hcoh : ∀ b ∈ bars, b.low ≤ b.high) (i : ℕ)
    (h2 : 2 ≤ i) (hi : i < bars.length) :
    ((bars.getD (i - 2) defaultBar).high < (bars.getD i defaultBar).low →
      ∃ f ∈ detectFVGs bars lookback, f.direction = "bullish" ∧
        f.low = (bars.getD (i - 2) defaultBar).high ∧
        f.high = (bars.getD i defaultBar).low ∧
        f.gap_size =
          (bars.getD i defaultBar).low - (bars.getD (i - 2) defaultBar).high) ∧
    ((bars.getD i defaultBar).high < (bars.getD (i - 2) defaultBar).low →
      ∃ f ∈ detectFVGs bars lookback, f.direction = "bearish" ∧
        f.high = (bars.getD (i - 2) defaultBar).low ∧
        f.low = (bars.getD i defaultBar).high ∧
        f.gap_size =
          (bars.getD (i - 2) defaultBar).low - (bars.getD i defaultBar).high) := by
  have hdrop : bars.length - lookback = 0 := Nat.sub_eq_zero_of_le hlb
  have hd : bars.drop (bars.length - lookback) = bars := by rw [hdrop, List.drop_zero]
  have hnot : ¬ bars.length < 10 := by omega
  have hmem : i ∈ List.range' 2 (bars.length - 2) := by
    rw [List.mem_range'_1]
    omega
  constructor
  · intro hcond
    have hval : fvgAt bars i = some
        { high := (bars.getD i defaultBar).low,
          low := (bars.getD (i - 2) defaultBar).high,
          gap_size := (bars.getD i defaultBar).low - (bars.getD (i - 2) defaultBar).high,
          direction := "bullish",
          filled := (bars.drop (i + 1)).any
            (fun b => decide (b.close < (bars.getD (i - 2) defaultBar).high)),
          mitigated := (bars.drop (i + 1)).any
            (fun b => decide (b.low ≤ (bars.getD i defaultBar).low)),
          invalidated := (bars.drop (i + 1)).any
            (fun b => decide (b.close < (bars.getD (i - 2) defaultBar).high)) } := by
      unfold fvgAt
      rw [if_pos hcond]
    exact ⟨_, by
      unfold detectFVGs
      rw [if_neg hnot, hd, List.mem_filterMap]
      exact ⟨i, hmem, hval⟩, rfl, rfl, rfl, rfl⟩
  · intro hcond
    have hc1 : (bars.getD (i - 2) defaultBar).low ≤ (bars.getD (i - 2) defaultBar).high := by
      apply hcoh
      have h1 : i - 2 < bars.length := by omega
      rw [List.getD_eq_getElem bars defaultBar h1]
      exact List.getElem_mem h1
    have hc3 : (bars.getD i defaultBar).low ≤ (bars.getD i defaultBar).high := by
      apply hcoh
      rw [List.getD_eq_getElem bars defaultBar hi]
      exact List.getElem_mem hi
    have hnb : ¬ (bars.getD (i - 2) defaultBar).high < (bars.getD i defaultBar).low := by
      intro hb
      exact absurd (lt_trans (lt_of_le_of_lt hc1 hb) (lt_of_le_of_lt hc3 hcond)) (lt_irrefl _)
    have hval : fvgAt bars i = some
        { high := (bars.getD (i - 2) defaultBar).low,
          low := (bars.getD i defaultBar).high,
          gap_size := (bars.getD (i - 2) defaultBar).low - (bars.getD i defaultBar).high,
          direction := "bearish",
          filled := (bars.drop (i + 1)).any
            (fun b => decide ((bars.getD (i - 2) defaultBar).low < b.close)),
          mitigated := (bars.drop (i + 1)).any
            (fun b => decide ((bars.getD i defaultBar).high ≤ b.high)),
          invalidated := (bars.drop (i + 1)).any
            (fun b => decide ((bars.getD (i - 2) defaultBar).low < b.close)) } := by
      unfold fvgAt
      rw [if_neg hnb, if_pos hcond]
    exact ⟨_, by
      unfold detectFVGs
      rw [if_neg hnot, hd, List.mem_filterMap]
      exact ⟨i, hmem, hval⟩, rfl, rfl, rfl, rfl⟩

/-- C1, witness: the amended theorem applied to the Example-1 triple embedded
in a 10-bar sequence: the bullish FVG `low = 10`, `high = 10.5`,
`gap_size = 0.5` is emitted. -/
theorem detectFVGs_scan_triples_witness :
    ∃ f ∈ detectFVGs exampleBars10 100, f.direction = "bullish" ∧
      f.low = (exampleBars10.getD 0 defaultBar).high ∧
      f.high = (exampleBars10.getD 2 defaultBar).low ∧
      f.gap_size =
        (exampleBars10.getD 2 defaultBar).low - (exampleBars10.getD 0 defaultBar).high :=
  (detectFVGs_scan_triples exampleBars10 100 (by decide) (by decide)
    (by decide) 2 (by decide) (by decide)).1 (by decide)

/-- C6: the Dealing-Range Builder's zones satisfy
`equilibrium = low + 0.5*(high-low)`, `premium = low + 0.618*(high-low)`,
`discount = low + 0.382*(high-low)`; when `high > low` the strict ordering
`discount < equilibrium < premium` holds; and `high=110, low=100` yields
`equilibrium=105, premium=106.18, discount=103.82`. -/
theorem dealingRange_zones_spec (high low : ℚ) :
    (dealingRangeZones high low).equilibrium = low + (1/2) * (high - low) ∧
    (dealingRangeZones high low).premium = low + (618/1000) * (high - low) ∧
    (dealingRangeZones high low).discount = low + (382/1000) * (high - low) ∧
    (low < high →
      (dealingRangeZones high low).discount < (dealingRangeZones high low).equilibrium ∧
      (dealingRangeZones high low).equilibrium < (dealingRangeZones high low).premium) ∧
    (dealingRangeZones 110 100).equilibrium = 105 ∧
    (dealingRangeZones 110 100).premium = 10618/100 ∧
    (dealingRangeZones 110 100).discount = 10382/100 := by
  have hmk50 : (mkRat 50 100 : ℚ) = 1/2 := by norm_num [Rat.mkRat_eq_divInt]
  have hmk618 : (mkRat 618 1000 : ℚ) = 618/1000 := by norm_num [Rat.mkRat_eq_divInt]
  have hmk382 : (mkRat 382 1000 : ℚ) = 382/1000 := by norm_num [Rat.mkRat_eq_divInt]
  refine ⟨?_, ?_, ?_, ?_, ?_, ?_, ?_⟩
  · simp only [dealingRangeZones, hmk50]; ring
  · simp only [dealingRangeZones, hmk618]; ring
  · simp only [dealingRangeZones, hmk382]; ring
  · intro h
    have hpos : 0 < high - low := sub_pos.2 h
    constructor
    · simp only [dealingRangeZones, hmk50, hmk382]
      nlinarith
    · simp only [dealingRangeZones, hmk50, hmk618]
      nlinarith
  · simp only [dealingRangeZones, hmk50]; norm_num
  · simp only [dealingRangeZones, hmk618]; norm_num
  · simp only [dealingRangeZones, hmk382]; norm_num

/-- C6, witness: the general theorem applied at `high=110, low=100`. -/
theorem dealingRange_zones_spec_witness :
    (100 : ℚ) < 110 ∧
    (dealingRangeZones 110 100).discount < (dealingRangeZones 110 100).equilibrium ∧
    (dealingRangeZones 110 100).equilibrium < (dealingRangeZones 110 100).premium :=
  ⟨by norm_num, (dealingRange_zones_spec 110 100).2.2.2.1 (by norm_num)⟩

/-- C2, counterexample: a plan whose fields are all present numeric values but
with `stop_loss = 0` is reported N/A by the validator (Python truthiness
treats the numeric `0` as a missing field), even though the price is at the
stop and the claim demands INVALIDATED. -/
theorem validatePlan_zero_stop_NA :
    validatePlanStatus (some ⟨some 101, some 100, some 0, some (-5)⟩) (-1) true =
      some PlanStatus.NA ∧ ((-1 : ℚ) ≤ 0 ∨ (-1 : ℚ) ≤ -5) := by
  constructor
  · decide
  · left
    norm_num

/-- C2, amended: for plans whose `entry_zone.high`, `entry_zone.low` and
`stop_loss` are present and nonzero and whose `invalidation` is present, the
validator returns INVALIDATED iff `price ≤ invalidation ∨ price ≤ stop_loss`
(long), else ACTIVE iff price is in the entry zone or at/below `entry_high`
(holding against the stop), else WAITING iff `price > entry_high`; mirrored
for short; in particular `entry_zone={high:101, low:100}`, `stop_loss=98`,
`invalidation=97`, price `100.5` is ACTIVE and price `97.5` is INVALIDATED. -/
theorem validatePlan_characterization (eh el sl inv price : ℚ)
    (heh : eh ≠ 0) (hel : el ≠ 0) (hsl : sl ≠ 0) :
    (validatePlanStatus (some ⟨some eh, some el, some sl, some inv⟩) price true =
        some PlanStatus.INVALIDATED ↔ price ≤ inv ∨ price ≤ sl) ∧
    (validatePlanStatus (some ⟨some eh, some el, some sl, some inv⟩) price true =
        some PlanStatus.ACTIVE ↔
      ¬(price ≤ inv ∨ price ≤ sl) ∧ ((el ≤ price ∧ price ≤ eh) ∨ ¬eh < price)) ∧
    (validatePlanStatus (some ⟨some eh, some el, some sl, some inv⟩) price true =
        some PlanStatus.WAITING ↔
      ¬(price ≤ inv ∨ price ≤ sl) ∧ ¬(el ≤ price ∧ price ≤ eh) ∧ eh < price) ∧
    (validatePlanStatus (some ⟨some eh, some el, some sl, some inv⟩) price false =
        some PlanStatus.INVALIDATED ↔ inv ≤ price ∨ sl ≤ price) ∧
    (validatePlanStatus (some ⟨some eh, some el, some sl, some inv⟩) price false =
        some PlanStatus.ACTIVE ↔
      ¬(inv ≤ price ∨ sl ≤ price) ∧ ((el ≤ price ∧ price ≤ eh) ∨ ¬price < el)) ∧
    (validatePlanStatus (some ⟨some eh, some el, some sl, some inv⟩) price false =
        some PlanStatus.WAITING ↔
      ¬(inv ≤ price ∨ sl ≤ price) ∧ ¬(el ≤ price ∧ price ≤ eh) ∧ price < el) ∧
    validatePlanStatus (some ⟨some 101, some 100, some 98, some 97⟩) (mkRat 201 2) true =
      some PlanStatus.ACTIVE ∧
    validatePlanStatus (some ⟨some 101, some 100, some 98, some 97⟩) (mkRat 195 2) true =
      some PlanStatus.INVALIDATED := by
  have hg : (!(qTruthy (some eh) && qTruthy (some el) && qTruthy (some sl))) = false := by
    simp [qTruthy, heh, hel, hsl]
  refine ⟨?_, ?_, ?_, ?_, ?_, ?_, by decide, by decide⟩ <;>
    · simp only [validatePlanStatus, hg, Bool.false_eq_true, if_false, if_true]
      split_ifs <;> simp_all

/-- C2, witness: the amended characterization applied at the specification's
Example-3/Example-4 inputs (`invalidation = 97`). -/
theorem validatePlan_characterization_witness :
    validatePlanStatus (some ⟨some 101, some 100, some 98, some 97⟩) (mkRat 201 2) true =
      some PlanStatus.ACTIVE ∧
    validatePlanStatus (some ⟨some 101, some 100, some 98, some 97⟩) (mkRat 195 2) true =
      some PlanStatus.INVALIDATED :=
  ⟨((validatePlan_characterization 101 100 98 97 (mkRat 201 2) (by norm_num)
      (by norm_num) (by norm_num)).2.1).mpr (by decide),
   ((validatePlan_characterization 101 100 98 97 (mkRat 195 2) (by norm_num)
      (by norm_num) (by norm_num)).1).mpr (by decide)⟩

/-- C10: the Plan Validator never returns the MISSED status listed in its
docstring, for any plan, price and direction. -/
theorem validatePlan_never_MISSED (plan : Option Plan) (price : ℚ) (isLong : Bool) :
    validatePlanStatus plan price isLong ≠ some PlanStatus.MISSED := by
  rcases plan with _ | p
  · simp [validatePlanStatus]
  · rcases p with ⟨eh, el, sl, inv⟩
    rcases eh with _ | eh <;> rcases el with _ | el <;> rcases sl with _ | sl <;>
      rcases inv with _ | inv <;>
      simp only [validatePlanStatus] <;> split_ifs <;> simp

/-- C5: the Day-Type Classifier computes trend/reversal/consolidation scores
by the stated additive terms (bias, session sweeps, strong order block,
unfilled FVGs) and returns `"trend"` iff
`trend_score ≥ max(reversal, consolidation) + 1`, else `"reversal"` iff
`reversal_score ≥ max(trend, consolidation) + 1`, else `"consolidation"`. -/
theorem dayType_classification (htfBias : BiasTy) (sweepTypes : List String)
    (orderBlocks : List OrderBlock) (fvgs : List FVG) :
    let bslSwept := sweepTypes.any (· == "BSL")
    let sslSwept := sweepTypes.any (· == "SSL")
    let ts : ℕ := (if htfBias ≠ BiasTy.NEUTRAL then 2 else 0) +
      (if (bslSwept || sslSwept) && !(bslSwept && sslSwept) then 2 else 0) +
      (if 2 < (fvgs.filter (fun f => !f.filled)).length then 1 else 0)
    let rs : ℕ := (if bslSwept && sslSwept then 3 else 0) +
      (if ∃ ob ∈ orderBlocks, mkRat 7 10 < ob.strength then 1 else 0)
    let cs : ℕ := (if htfBias = BiasTy.NEUTRAL then 2 else 0) +
      (if !bslSwept && !sslSwept then 2 else 0)
    (step5DayType htfBias sweepTypes orderBlocks fvgs = "trend" ↔
      max rs cs + 1 ≤ ts) ∧
    (step5DayType htfBias sweepTypes orderBlocks fvgs = "reversal" ↔
      ¬(max rs cs + 1 ≤ ts) ∧ max ts cs + 1 ≤ rs) ∧
    (step5DayType htfBias sweepTypes orderBlocks fvgs = "consolidation" ↔
      ¬(max rs cs + 1 ≤ ts) ∧ ¬(max ts cs + 1 ≤ rs)) := by
  have hOB : (0 < (orderBlocks.filter
      (fun ob => decide (mkRat 7 10 < ob.strength))).length) ↔
      (∃ ob ∈ orderBlocks, mkRat 7 10 < ob.strength) := by
    rw [List.length_pos_iff_exists_mem]
    simp [List.mem_filter]
  simp only [step5DayType, hOB]
  rcases htfBias <;>
    cases hb : sweepTypes.any (· == "BSL") <;>
    cases hs : sweepTypes.any (· == "SSL") <;>
    by_cases hOBp : ∃ ob ∈ orderBlocks, mkRat 7 10 < ob.strength <;>
    by_cases hF : 2 < (fvgs.filter (fun f => !f.filled)).length <;>
    simp only [hb, hs, hOBp, hF, if_true, if_false, Bool.and_self, Bool.and_true,
      Bool.true_and, Bool.and_false, Bool.false_and, Bool.or_self, Bool.or_true,
      Bool.true_or, Bool.false_or, Bool.not_true, Bool.not_false, if_pos, if_neg,
      not_true, not_false_iff, ne_eq, reduceCtorEq, not_false_eq_true] <;>
    simp_all

/-- C9, counterexample: a 20-bar sequence is reported `"insufficient_data"`
by the market-structure analyzer (its threshold is 30 bars, not 20). -/
theorem structure_20bars_sentinel :
    (List.replicate 20 (⟨1, 2, 1, 1⟩ : Bar)).length = 20 ∧
    analyzeMarketStructure (List.replicate 20 ⟨1, 2, 1, 1⟩) = "insufficient_data" := by
  constructor
  · decide
  · rfl

/-- An `ite` of two members of a list is a member. -/
theorem ite_mem_of {α : Type} {c : Prop} [Decidable c] {a b : α} {L : List α}
    (ha : a ∈ L) (hb : b ∈ L) : (if c then a else b) ∈ L := by
  split
  · exact ha
  · exact hb

/-- C9, amended: the analyzer returns `"insufficient_data"` exactly when the
input has fewer than 30 bars (not 20); with 30 or more bars it returns one of
the six real structure labels. -/
theorem analyzeMarketStructure_spec (bars : List Bar) :
    (analyzeMarketStructure bars = "insufficient_data" ↔ bars.length < 30) ∧
    (30 ≤ bars.length →
      analyzeMarketStructure bars ∈
        ["higher_highs_higher_lows", "higher_highs", "lower_highs_lower_lows",
         "lower_lows", "ranging", "choppy"]) := by
  have hmem : bars.length < 30 ∨ analyzeMarketStructure bars ∈
      ["higher_highs_higher_lows", "higher_highs", "lower_highs_lower_lows",
       "lower_lows", "ranging", "choppy"] := by
    unfold analyzeMarketStructure
    by_cases h : bars.length < 30
    · exact Or.inl h
    · right
      rw [if_neg h]
      exact ite_mem_of (by simp) (ite_mem_of (by simp) (ite_mem_of (by simp)
        (ite_mem_of (by simp) (ite_mem_of (by simp) (by simp)))))
  constructor
  · constructor
    · intro he
      by_contra hge
      rcases hmem with h | hm
      · exact hge h
      · rw [he] at hm
        simp at hm
    · intro hlt
      unfold analyzeMarketStructure
      rw [if_pos hlt]
  · intro h30
    rcases hmem with h | hm
    · omega
    · exact hm

unseal Rat.add Rat.sub Rat.mul Rat.inv in
/-- C9, witness: the amended theorem applied to a 30-bar constant sequence,
which gets a real label. -/
theorem analyzeMarketStructure_spec_witness :
    30 ≤ (List.replicate 30 (⟨1, 2, 1, 1⟩ : Bar)).length ∧
    analyzeMarketStructure (List.replicate 30 ⟨1, 2, 1, 1⟩) ∈
      ["higher_highs_higher_lows", "higher_highs", "lower_highs_lower_lows",
       "lower_lows", "ranging", "choppy"] :=
  ⟨by decide, (analyzeMarketStructure_spec (List.replicate 30 ⟨1, 2, 1, 1⟩)).2 (by decide)⟩

/-- `_obs_overlap` is symmetric. -/
theorem obsOverlap_comm (a b : OrderBlock) : obsOverlap a b = obsOverlap b a := by
  simp [obsOverlap, Bool.or_comm]

/-- Blocks already kept by the greedy loop stay in its result. -/
theorem removeOverlappingLoop_subset (rest : List OrderBlock) :
    ∀ acc, ∀ e ∈ acc, e ∈ removeOverlappingLoop rest acc := by
  induction rest with
  | nil =>
    intro acc e he
    simpa [removeOverlappingLoop] using he
  | cons ob rest ih =>
    intro acc e he
    simp only [removeOverlappingLoop]
    split
    · exact ih acc e he
    · exact ih (acc ++ [ob]) e (by simp [he])

/-- The greedy loop preserves pairwise non-overlap of the kept blocks. -/
theorem removeOverlappingLoop_pairwise (rest : List OrderBlock) :
    ∀ acc, acc.Pairwise (fun a b => obsOverlap a b = false) →
    (removeOverlappingLoop rest acc).Pairwise (fun a b => obsOverlap a b = false) := by
  induction rest with
  | nil =>
    intro acc hacc
    simpa [removeOverlappingLoop] using hacc
  | cons ob rest ih =>
    intro acc hacc
    simp only [removeOverlappingLoop]
    split
    · exact ih acc hacc
    · rename_i hno
      apply ih
      rw [List.pairwise_append]
      refine ⟨hacc, by simp, ?_⟩
      intro a ha b hb
      simp only [List.mem_singleton] at hb
      rw [hb, obsOverlap_comm]
      have hall : ∀ e ∈ acc, ¬ obsOverlap ob e = true := by
        simpa [List.any_eq_true] using hno
      simpa using hall a ha

/-- Every block dropped by the greedy loop overlaps some kept block of
greater or equal strength, provided the pending list is sorted by strength
descending and everything kept so far dominates it. -/
theorem removeOverlappingLoop_dominated (rest : List OrderBlock) :
    ∀ acc, (∀ e ∈ acc, ∀ o ∈ rest, o.strength ≤ e.strength) →
    rest.Sorted strengthDesc →
    ∀ ob ∈ rest, ob ∉ removeOverlappingLoop rest acc →
      ∃ e ∈ removeOverlappingLoop rest acc,
        obsOverlap ob e = true ∧ ob.strength ≤ e.strength := by
  induction rest with
  | nil =>
    intro acc _ _ ob hmem
    exact absurd hmem (List.not_mem_nil ob)
  | cons ob0 rest ih =>
    intro acc hstr hsort ob hmem hnotin
    simp only [removeOverlappingLoop] at hnotin ⊢
    by_cases hcond : (acc.any fun e => obsOverlap ob0 e) = true
    · rw [if_pos hcond] at hnotin ⊢
      rcases List.mem_cons.1 hmem with rfl | hmem'
      · obtain ⟨e, he, hov⟩ := List.any_eq_true.1 hcond
        exact ⟨e, removeOverlappingLoop_subset rest acc e he, hov,
          hstr e he ob (by simp)⟩
      · exact ih acc (fun e he o ho => hstr e he o (by simp [ho]))
          ((List.sorted_cons.1 hsort).2) ob hmem' hnotin
    · rw [if_neg hcond] at hnotin ⊢
      rcases List.mem_cons.1 hmem with rfl | hmem'
      · exact absurd (removeOverlappingLoop_subset rest (acc ++ [ob]) ob (by simp)) hnotin
      · refine ih (acc ++ [ob0]) ?_ ((List.sorted_cons.1 hsort).2) ob hmem' hnotin
        intro e he o ho
        rcases List.mem_append.1 he with h1 | h2
        · exact hstr e h1 o (by simp [ho])
        · simp only [List.mem_singleton] at h2
          subst h2
          exact (List.sorted_cons.1 hsort).1 o ho

/-- C7: after overlap pruning, no two retained order blocks share any price
point (their `[low, high]` intervals are pairwise disjoint), and every pruned
block overlaps a retained block of greater or equal strength. -/
theorem removeOverlappingObs_spec (obs : List OrderBlock) :
    (removeOverlappingObs obs).Pairwise
      (fun a b => ∀ x : ℚ, ¬(a.low ≤ x ∧ x ≤ a.high ∧ b.low ≤ x ∧ x ≤ b.high)) ∧
    ∀ ob ∈ obs, ob ∉ removeOverlappingObs obs →
      ∃ e ∈ removeOverlappingObs obs,
        obsOverlap ob e = true ∧ ob.strength ≤ e.strength := by
  constructor
  · have hp := removeOverlappingLoop_pairwise
      (List.insertionSort strengthDesc obs) [] (by simp)
    refine List.Pairwise.imp ?_ hp
    intro a b hab x hx
    rw [obsOverlap, Bool.not_eq_false'] at hab
    simp only [Bool.or_eq_true, decide_eq_true_eq] at hab
    obtain ⟨h1, h2, h3, h4⟩ := hx
    rcases hab with h | h <;> linarith
  · intro ob hob hnot
    exact removeOverlappingLoop_dominated (List.insertionSort strengthDesc obs) []
      (by simp) (List.sorted_insertionSort strengthDesc obs) ob
      (((List.perm_insertionSort strengthDesc obs).mem_iff).2 hob) hnot

/-- C7, witness: on two overlapping blocks the weaker is pruned and the
spec property instantiates. -/
theorem removeOverlappingObs_spec_witness :
    (⟨15, 5, "bullish", mkRat 1 2⟩ : OrderBlock) ∈
      [(⟨10, 0, "bullish", mkRat 9 10⟩ : OrderBlock), ⟨15, 5, "bullish", mkRat 1 2⟩] ∧
    ∃ e ∈ removeOverlappingObs
        [(⟨10, 0, "bullish", mkRat 9 10⟩ : OrderBlock), ⟨15, 5, "bullish", mkRat 1 2⟩],
      obsOverlap ⟨15, 5, "bullish", mkRat 1 2⟩ e = true ∧
      (mkRat 1 2 : ℚ) ≤ e.strength :=
  ⟨by decide,
   (removeOverlappingObs_spec
      [⟨10, 0, "bullish", mkRat 9 10⟩, ⟨15, 5, "bullish", mkRat 1 2⟩]).2
     ⟨15, 5, "bullish", mkRat 1 2⟩ (by decide) (by decide)⟩

/-- Separation property claimed for the merged zone list: same-type
neighbours are more than 0.2% apart (relative to the earlier zone). -/
def zoneSep (a b : LiquidityZone) : Prop :=
  a.zone_type = b.zone_type → mkRat 2 1000 < |b.price - a.price| / a.price

/-- The head of a merge run is at least as high-priced as its seed and has
the seed's zone type. -/
theorem mergeRun_head (rest : List LiquidityZone) :
    ∀ lastM, List.Sorted priceAsc (lastM :: rest) →
    ∃ w t, mergeRun lastM rest = w :: t ∧ lastM.price ≤ w.price ∧
      w.zone_type = lastM.zone_type := by
  induction rest with
  | nil =>
    intro lastM _
    exact ⟨lastM, [], rfl, le_refl _, rfl⟩
  | cons z rest ih =>
    intro lastM hsort
    have h1 : lastM.price ≤ z.price :=
      (List.sorted_cons.1 hsort).1 z (List.mem_cons_self z rest)
    have htail : List.Sorted priceAsc (z :: rest) := (List.sorted_cons.1 hsort).2
    simp only [mergeRun]
    split
    · rename_i hc
      have hty : z.zone_type = lastM.zone_type := by
        rw [Bool.and_eq_true] at hc
        simpa [beq_iff_eq] using hc.2
      split
      · obtain ⟨w, t, heq, hwp, hwt⟩ := ih z htail
        exact ⟨w, t, heq, le_trans h1 hwp, by rw [hwt, hty]⟩
      · have hsort' : List.Sorted priceAsc (lastM :: rest) := by
          rw [List.sorted_cons] at hsort ⊢
          exact ⟨fun b hb => hsort.1 b (List.mem_cons_of_mem z hb),
            (List.sorted_cons.1 htail).2⟩
        exact ih lastM hsort'
    · exact ⟨lastM, mergeRun z rest, rfl, le_refl _, rfl⟩

/-- Consecutive zones in a merge-run result are separated per `zoneSep`,
for price-sorted input with positive prices. -/
theorem mergeRun_chain (rest : List LiquidityZone) :
    ∀ lastM, List.Sorted priceAsc (lastM :: rest) →
    (∀ y ∈ lastM :: rest, 0 < y.price) →
    (mergeRun lastM rest).Chain' zoneSep := by
  induction rest with
  | nil =>
    intro lastM _ _
    simp [mergeRun]
  | cons z rest ih =>
    intro lastM hsort hpos
    have h1 : lastM.price ≤ z.price :=
      (List.sorted_cons.1 hsort).1 z (List.mem_cons_self z rest)
    have htail : List.Sorted priceAsc (z :: rest) := (List.sorted_cons.1 hsort).2
    have hposT : ∀ y ∈ z :: rest, 0 < y.price :=
      fun y hy => hpos y (List.mem_cons_of_mem lastM hy)
    simp only [mergeRun]
    split
    · split
      · exact ih z htail hposT
      · have hsort' : List.Sorted priceAsc (lastM :: rest) := by
          rw [List.sorted_cons] at hsort ⊢
          exact ⟨fun b hb => hsort.1 b (List.mem_cons_of_mem z hb),
            (List.sorted_cons.1 htail).2⟩
        have hpos' : ∀ y ∈ lastM :: rest, 0 < y.price := by
          intro y hy
          rcases List.mem_cons.1 hy with rfl | hy'
          · exact hpos y (List.mem_cons_self _ _)
          · exact hposT y (List.mem_cons_of_mem z hy')
        exact ih lastM hsort' hpos'
    · rename_i hc
      rw [List.chain'_cons']
      constructor
      · intro w hw
        obtain ⟨w', t, heq, hwp, hwt⟩ := mergeRun_head rest z htail
        rw [heq] at hw
        simp only [List.head?_cons, Option.mem_def, Option.some.injEq] at hw
        subst hw
        intro hty
        have htyz : z.zone_type = lastM.zone_type := by
          rw [← hwt, ← hty]
        have hclose : ¬ zonesClose z lastM = true := by
          intro hcl
          exact hc (by simp [hcl, htyz])
        have hp0 : 0 < lastM.price := hpos lastM (List.mem_cons_self _ _)
        have hgt : mkRat 2 1000 < |z.price - lastM.price| / lastM.price := by
          simpa [zonesClose, not_le] using hclose
        have habs1 : |z.price - lastM.price| = z.price - lastM.price :=
          abs_of_nonneg (by linarith)
        have habs2 : |w'.price - lastM.price| = w'.price - lastM.price :=
          abs_of_nonneg (by linarith)
        rw [habs1] at hgt
        rw [habs2]
        calc mkRat 2 1000 < (z.price - lastM.price) / lastM.price := hgt
          _ ≤ (w'.price - lastM.price) / lastM.price := by
              rw [div_le_div_iff_of_pos_right hp0]
              linarith
      · exact ih z htail hposT

/-- Every zone fed to a merge run is dominated in strength by some zone of
the run's result (each merge keeps the stronger zone). -/
theorem mergeRun_strength (rest : List LiquidityZone) :
    ∀ lastM, ∀ y ∈ lastM :: rest,
    ∃ w ∈ mergeRun lastM rest, y.strength ≤ w.strength := by
  induction rest with
  | nil =>
    intro lastM y hy
    simp only [List.mem_singleton] at hy
    subst hy
    exact ⟨y, by simp [mergeRun], le_refl _⟩
  | cons z rest ih =>
    intro lastM y hy
    simp only [mergeRun]
    split
    · split
      · rename_i hlt
        rcases List.mem_cons.1 hy with rfl | hy'
        · obtain ⟨w, hw, hle⟩ := ih z z (List.mem_cons_self z rest)
          exact ⟨w, hw, le_trans (le_of_lt hlt) hle⟩
        · exact ih z y hy'
      · rename_i hnlt
        rcases List.mem_cons.1 hy with rfl | hy'
        · exact ih y y (List.mem_cons_self y rest)
        · rcases List.mem_cons.1 hy' with rfl | hy''
          · obtain ⟨w, hw, hle⟩ := ih lastM lastM (List.mem_cons_self lastM rest)
            exact ⟨w, hw, le_trans (not_lt.1 hnlt) hle⟩
          · exact ih lastM y (List.mem_cons_of_mem lastM hy'')
    · rcases List.mem_cons.1 hy with rfl | hy'
      · exact ⟨y, List.mem_cons_self y _, le_refl _⟩
      · obtain ⟨w, hw, hle⟩ := ih z y hy'
        exact ⟨w, List.mem_cons_of_mem lastM hw, hle⟩

/-- C8, amended: in the merged result, zones that are ADJACENT in price order
and share a zone type differ by more than 0.2% relative to the earlier zone,
and every input zone is dominated in strength by some retained zone (each
merge keeps the stronger zone).  Non-adjacent same-type zones can end closer
than 0.2% (see the counterexample), because the source only compares each
zone with `merged[-1]`. -/
theorem mergeNearbyZones_spec (zones : List LiquidityZone)
    (hpos : ∀ z ∈ zones, 0 < z.price) :
    (mergeNearbyZones zones).Chain' zoneSep ∧
    ∀ z ∈ zones, ∃ w ∈ mergeNearbyZones zones, z.strength ≤ w.strength := by
  rcases hS : List.insertionSort priceAsc zones with _ | ⟨z0, rest⟩
  · constructor
    · simp [mergeNearbyZones, hS]
    · intro z hz
      have hz' : z ∈ List.insertionSort priceAsc zones :=
        ((List.perm_insertionSort priceAsc zones).mem_iff).2 hz
      rw [hS] at hz'
      exact absurd hz' (List.not_mem_nil z)
  · have hsorted : List.Sorted priceAsc (z0 :: rest) := by
      rw [← hS]
      exact List.sorted_insertionSort priceAsc zones
    have hposS : ∀ y ∈ z0 :: rest, 0 < y.price := by
      intro y hy
      apply hpos
      refine ((List.perm_insertionSort priceAsc zones).mem_iff).1 ?_
      rw [hS]
      exact hy
    constructor
    · rw [mergeNearbyZones, hS]
      exact mergeRun_chain rest z0 hsorted hposS
    · intro z hz
      have hzS : z ∈ z0 :: rest := by
        rw [← hS]
        exact ((List.perm_insertionSort priceAsc zones).mem_iff).2 hz
      rw [mergeNearbyZones, hS]
      exact mergeRun_strength rest z0 z hzS

/-- Zone triple defeating the pairwise 0.2% claim: two buy-side zones 0.15%
apart separated in price order by a sell-side zone. -/
def cexZones : List LiquidityZone :=
  [⟨100, "buy_side", mkRat 1 2⟩,
   ⟨mkRat 1001 10, "sell_side", mkRat 1 2⟩,
   ⟨mkRat 2003 20, "buy_side", mkRat 1 2⟩]

unseal Rat.add Rat.sub Rat.mul Rat.inv in
/-- C8, counterexample: the merged result keeps two `buy_side` zones only
0.15% apart (the sell-side zone between them resets `merged[-1]`), refuting
the claim that any two same-type zones in the result differ by more than
0.2%. -/
theorem mergeNearbyZones_not_pairwise :
    mergeNearbyZones cexZones = cexZones ∧
    (cexZones.getD 0 ⟨0, "", 0⟩).zone_type = (cexZones.getD 2 ⟨0, "", 0⟩).zone_type ∧
    |(cexZones.getD 2 ⟨0, "", 0⟩).price - (cexZones.getD 0 ⟨0, "", 0⟩).price| /
      (cexZones.getD 0 ⟨0, "", 0⟩).price ≤ mkRat 2 1000 := by
  refine ⟨by decide, by decide, by decide⟩

/-- C8, witness: the amended theorem applied to the concrete zone triple. -/
theorem mergeNearbyZones_spec_witness :
    (mergeNearbyZones cexZones).Chain' zoneSep ∧
    ∀ z ∈ cexZones, ∃ w ∈ mergeNearbyZones cexZones, z.strength ≤ w.strength :=
  mergeNearbyZones_spec cexZones (by decide)

/-- Ten bars: the Example-1 bullish gap `[10, 10.5]` formed at indices 0-2,
followed by seven bars lying entirely below the gap (`[4, 6]`). -/
def cexBarsC4 : List Bar :=
  exampleBars3 ++ List.replicate 7 ⟨5, 6, 4, 5⟩

unseal Rat.add Rat.sub Rat.mul Rat.inv in
/-- C4, counterexample: the first emitted FVG (the bullish gap `[10, 10.5]`)
has `mitigated = true` although no bar after the forming triple intersects
the gap interval — every later bar lies entirely below it; the source's
one-sided test `low <= gap_high` fires anyway. -/
theorem fvg_mitigated_without_touch :
    ((detectFVGs cexBarsC4 100).getD 0 ⟨0, 0, 0, "", false, false, false⟩).direction
        = "bullish" ∧
    ((detectFVGs cexBarsC4 100).getD 0 ⟨0, 0, 0, "", false, false, false⟩).low = 10 ∧
    ((detectFVGs cexBarsC4 100).getD 0 ⟨0, 0, 0, "", false, false, false⟩).high
        = mkRat 21 2 ∧
    ((detectFVGs cexBarsC4 100).getD 0 ⟨0, 0, 0, "", false, false, false⟩).mitigated
        = true ∧
    ((cexBarsC4.drop 3).all fun b =>
      !(decide (b.low ≤ mkRat 21 2) && decide ((10 : ℚ) ≤ b.high))) = true := by
  refine ⟨by decide, by decide, by decide, by decide, by decide⟩

/-- C4, amended: for every emitted FVG, `filled = invalidated`; `invalidated`
is true iff some bar strictly after the forming triple closes beyond the gap
in the adverse direction (close < gap_low for bullish, close > gap_high for
bearish); but `mitigated` is true iff some later bar's wick reaches the gap
from the relevant side only (`low ≤ gap_high` for bullish, `high ≥ gap_low`
for bearish) — not full interval intersection.  Flags are computed once at
detection and never change afterwards. -/
theorem fvg_flags_characterization (bars : List Bar) (lookback : ℕ) (f : FVG)
    (hf : f ∈ detectFVGs bars lookback) :
    f.filled = f.invalidated ∧
    ∃ i, 2 ≤ i ∧ i < (bars.drop (bars.length - lookback)).length ∧
      ((f.direction = "bullish" ∧
        (f.mitigated = true ↔
          ∃ b ∈ ((bars.drop (bars.length - lookback)).drop (i + 1)), b.low ≤ f.high) ∧
        (f.invalidated = true ↔
          ∃ b ∈ ((bars.drop (bars.length - lookback)).drop (i + 1)), b.close < f.low)) ∨
       (f.direction = "bearish" ∧
        (f.mitigated = true ↔
          ∃ b ∈ ((bars.drop (bars.length - lookback)).drop (i + 1)), f.low ≤ b.high) ∧
        (f.invalidated = true ↔
          ∃ b ∈ ((bars.drop (bars.length - lookback)).drop (i + 1)), f.high < b.close))) := by
  unfold detectFVGs at hf
  by_cases hten : bars.length < 10
  · rw [if_pos hten] at hf
    exact absurd hf (List.not_mem_nil f)
  · rw [if_neg hten] at hf
    obtain ⟨i, hiR, heq⟩ := List.mem_filterMap.1 hf
    rw [List.mem_range'_1] at hiR
    have hlen : i < (bars.drop (bars.length - lookback)).length := by omega
    unfold fvgAt at heq
    dsimp only at heq
    split at heq
    · rw [Option.some.injEq] at heq
      subst heq
      refine ⟨rfl, i, hiR.1, hlen, Or.inl ⟨rfl, ?_, ?_⟩⟩
      · simp [List.any_eq_true]
      · simp [List.any_eq_true]
    · split at heq
      · rw [Option.some.injEq] at heq
        subst heq
        refine ⟨rfl, i, hiR.1, hlen, Or.inr ⟨rfl, ?_, ?_⟩⟩
        · simp [List.any_eq_true]
        · simp [List.any_eq_true]
      · exact absurd heq (by simp)

unseal Rat.add Rat.sub Rat.mul Rat.inv in
/-- C4, witness: the amended characterization applied to the Example-1 gap
embedded in a 10-bar sequence (no later bar reaches it, so all flags are
false). -/
theorem fvg_flags_characterization_witness :
    (⟨mkRat 21 2, 10, mkRat 1 2, "bullish", false, false, false⟩ : FVG).filled =
      (⟨mkRat 21 2, 10, mkRat 1 2, "bullish", false, false, false⟩ : FVG).invalidated ∧
    ∃ i, 2 ≤ i ∧ i < (exampleBars10.drop (exampleBars10.length - 100)).length ∧
      (((⟨mkRat 21 2, 10, mkRat 1 2, "bullish", false, false, false⟩ : FVG).direction
          = "bullish" ∧
        ((⟨mkRat 21 2, 10, mkRat 1 2, "bullish", false, false, false⟩ : FVG).mitigated
            = true ↔
          ∃ b ∈ ((exampleBars10.drop (exampleBars10.length - 100)).drop (i + 1)),
            b.low ≤ (⟨mkRat 21 2, 10, mkRat 1 2, "bullish", false, false, false⟩ : FVG).high) ∧
        ((⟨mkRat 21 2, 10, mkRat 1 2, "bullish", false, false, false⟩ : FVG).invalidated
            = true ↔
          ∃ b ∈ ((exampleBars10.drop (exampleBars10.length - 100)).drop (i + 1)),
            b.close < (⟨mkRat 21 2, 10, mkRat 1 2, "bullish", false, false, false⟩ : FVG).low)) ∨
       ((⟨mkRat 21 2, 10, mkRat 1 2, "bullish", false, false, false⟩ : FVG).direction
          = "bearish" ∧
        ((⟨mkRat 21 2, 10, mkRat 1 2, "bullish", false, false, false⟩ : FVG).mitigated
            = true ↔
          ∃ b ∈ ((exampleBars10.drop (exampleBars10.length - 100)).drop (i + 1)),
            (⟨mkRat 21 2, 10, mkRat 1 2, "bullish", false, false, false⟩ : FVG).low ≤ b.high) ∧
        ((⟨mkRat 21 2, 10, mkRat 1 2, "bullish", false, false, false⟩ : FVG).invalidated
            = true ↔
          ∃ b ∈ ((exampleBars10.drop (exampleBars10.length - 100)).drop (i + 1)),
            (⟨mkRat 21 2, 10, mkRat 1 2, "bullish", false, false, false⟩ : FVG).high < b.close))) :=
  fvg_flags_characterization exampleBars10 100
    ⟨mkRat 21 2, 10, mkRat 1 2, "bullish", false, false, false⟩ (by decide)

/-- `max(l, key=.high)` returns an element of the list. -/
theorem maxByHigh_mem : ∀ (l : List FVG) (f : FVG), maxByHigh l = some f → f ∈ l := by
  intro l
  induction l with
  | nil =>
    intro f h
    simp [maxByHigh] at h
  | cons a l ih =>
    intro f h
    cases hm : maxByHigh l with
    | none =>
      simp only [maxByHigh, hm, Option.some.injEq] at h
      subst h
      exact List.mem_cons_self a l
    | some m =>
      simp only [maxByHigh, hm] at h
      split at h <;> rw [Option.some.injEq] at h <;> subst h
      · exact List.mem_cons_of_mem a (ih m hm)
      · exact List.mem_cons_self a l

/-- `min(l, key=.low)` returns an element of the list. -/
theorem minByLow_mem : ∀ (l : List FVG) (f : FVG), minByLow l = some f → f ∈ l := by
  intro l
  induction l with
  | nil =>
    intro f h
    simp [minByLow] at h
  | cons a l ih =>
    intro f h
    cases hm : minByLow l with
    | none =>
      simp only [minByLow, hm, Option.some.injEq] at h
      subst h
      exact List.mem_cons_self a l
    | some m =>
      simp only [minByLow, hm] at h
      split at h <;> rw [Option.some.injEq] at h <;> subst h
      · exact List.mem_cons_of_mem a (ih m hm)
      · exact List.mem_cons_self a l

/-- Round-half-to-even is monotone. -/
theorem roundHalfEven_le_of_le {a b : ℚ} (h : a ≤ b) :
    roundHalfEven a ≤ roundHalfEven b := by
  unfold roundHalfEven
  have hfl : ⌊a⌋ ≤ ⌊b⌋ := Int.floor_le_floor h
  have hmk : (mkRat 1 2 : ℚ) = 1/2 := by norm_num [Rat.mkRat_eq_divInt]
  rw [hmk]
  dsimp only
  by_cases heq : ⌊a⌋ = ⌊b⌋
  · have hq : ((⌊a⌋ : ℤ) : ℚ) = ((⌊b⌋ : ℤ) : ℚ) := by exact_mod_cast heq
    split_ifs <;> first | omega | (exfalso; linarith)
  · have hlt : ⌊a⌋ < ⌊b⌋ := lt_of_le_of_ne hfl heq
    split_ifs <;> omega

/-- Python's `round(x, 2)` is monotone. -/
theorem round2_mono {a b : ℚ} (h : a ≤ b) : round2 a ≤ round2 b := by
  unfold round2
  have h1 : a * 100 ≤ b * 100 := by linarith
  have h2 := roundHalfEven_le_of_le h1
  have h3 : ((roundHalfEven (a * 100) : ℤ) : ℚ) ≤ ((roundHalfEven (b * 100) : ℤ) : ℚ) := by
    exact_mod_cast h2
  linarith

/-- The upward padding loop, on a nonempty non-decreasing list bounded below
by `c`, produces at least 3 elements, stays non-decreasing, and stays
strictly above `c`. -/
theorem padLoop_up_facts (fuel : ℕ) :
    ∀ (l : List ℚ) (c : ℚ), l ≠ [] → 3 - l.length ≤ fuel →
    l.Chain' (· ≤ ·) → (∀ x ∈ l, c < x) →
    3 ≤ (padLoop 1 fuel l).length ∧ (padLoop 1 fuel l).Chain' (· ≤ ·) ∧
      ∀ x ∈ padLoop 1 fuel l, c < x := by
  induction fuel with
  | zero =>
    intro l c hne hf hc hall
    have h3 : 3 ≤ l.length := by omega
    exact ⟨h3, hc, hall⟩
  | succ fuel ih =>
    intro l c hne hf hc hall
    simp only [padLoop]
    split
    · rename_i h3
      exact ⟨h3, hc, hall⟩
    · rename_i h3
      cases hl : l.getLast? with
      | none => exact absurd (List.getLast?_eq_none_iff.1 hl) hne
      | some x =>
        have hx : x ∈ l := List.mem_of_getLast?_eq_some hl
        apply ih (l ++ [x + 1]) c (by simp) (by simp; omega) ?_ ?_
        · rw [List.chain'_append]
          refine ⟨hc, List.chain'_singleton _, ?_⟩
          intro a ha b hb
          rw [hl] at ha
          simp only [Option.mem_def, Option.some.injEq] at ha
          simp only [List.head?_cons, Option.mem_def, Option.some.injEq] at hb
          subst ha
          subst hb
          linarith
        · intro y hy
          rcases List.mem_append.1 hy with h1 | h2
          · exact hall y h1
          · simp only [List.mem_singleton] at h2
            subst h2
            have := hall x hx
            linarith

/-- The downward padding loop, mirrored. -/
theorem padLoop_down_facts (fuel : ℕ) :
    ∀ (l : List ℚ) (c : ℚ), l ≠ [] → 3 - l.length ≤ fuel →
    l.Chain' (fun a b => b ≤ a) → (∀ x ∈ l, x < c) →
    3 ≤ (padLoop (-1) fuel l).length ∧
      (padLoop (-1) fuel l).Chain' (fun a b => b ≤ a) ∧
      ∀ x ∈ padLoop (-1) fuel l, x < c := by
  induction fuel with
  | zero =>
    intro l c hne hf hc hall
    have h3 : 3 ≤ l.length := by omega
    exact ⟨h3, hc, hall⟩
  | succ fuel ih =>
    intro l c hne hf hc hall
    simp only [padLoop]
    split
    · rename_i h3
      exact ⟨h3, hc, hall⟩
    · rename_i h3
      cases hl : l.getLast? with
      | none => exact absurd (List.getLast?_eq_none_iff.1 hl) hne
      | some x =>
        have hx : x ∈ l := List.mem_of_getLast?_eq_some hl
        apply ih (l ++ [x + -1]) c (by simp) (by simp; omega) ?_ ?_
        · rw [List.chain'_append]
          refine ⟨hc, List.chain'_singleton _, ?_⟩
          intro a ha b hb
          rw [hl] at ha
          simp only [Option.mem_def, Option.some.injEq] at ha
          simp only [List.head?_cons, Option.mem_def, Option.some.injEq] at hb
          subst ha
          subst hb
          linarith
        · intro y hy
          rcases List.mem_append.1 hy with h1 | h2
          · exact hall y h1
          · simp only [List.mem_singleton] at h2
            subst h2
            have := hall x hx
            linarith

/-- The long-side target list always holds ≥3 non-decreasing prices strictly
above the entry, provided the stop sits strictly below the entry. -/
theorem longTargets_facts (dr : DealingRange) (entryHigh stopLoss : ℚ)
    (hrisk : stopLoss < entryHigh) :
    3 ≤ (longTargets dr entryHigh stopLoss).length ∧
    (longTargets dr entryHigh stopLoss).Chain' (· ≤ ·) ∧
    ∀ x ∈ longTargets dr entryHigh stopLoss, entryHigh < x := by
  unfold longTargets padTargetsUp
  dsimp only
  set valid := [dr.equilibrium, dr.premium, dr.high].filter
    (fun t => decide (entryHigh < t)) with hv
  set valid' := (if valid.isEmpty then [entryHigh + (entryHigh - stopLoss) * 2]
    else valid) with hv'
  have hne : valid' ≠ [] := by
    rw [hv']
    split
    · simp
    · rename_i hvne
      simpa [List.isEmpty_iff] using hvne
  have hall : ∀ x ∈ valid', entryHigh < x := by
    rw [hv']
    split
    · intro x hx
      simp only [List.mem_singleton] at hx
      subst hx
      linarith
    · intro x hx
      rw [hv] at hx
      have := (List.mem_filter.1 hx).2
      simpa using this
  have hS : (List.insertionSort qAsc valid').Chain' (· ≤ ·) :=
    ((List.sorted_insertionSort qAsc valid').chain').imp (fun a b hab => hab)
  have hSne : List.insertionSort qAsc valid' ≠ [] := by
    intro h
    have hp := List.perm_insertionSort qAsc valid'
    rw [h] at hp
    exact hne hp.symm.eq_nil
  have hSall : ∀ x ∈ List.insertionSort qAsc valid', entryHigh < x :=
    fun x hx => hall x ((List.perm_insertionSort qAsc valid').mem_iff.1 hx)
  exact padLoop_up_facts 3 _ entryHigh hSne (by omega) hS hSall

/-- The short-side target list always holds ≥3 non-increasing prices strictly
below the entry, provided the stop sits strictly above the entry. -/
theorem shortTargets_facts (dr : DealingRange) (entryLow stopLoss : ℚ)
    (hrisk : entryLow < stopLoss) :
    3 ≤ (shortTargets dr entryLow stopLoss).length ∧
    (shortTargets dr entryLow stopLoss).Chain' (fun a b => b ≤ a) ∧
    ∀ x ∈ shortTargets dr entryLow stopLoss, x < entryLow := by
  unfold shortTargets padTargetsDown
  dsimp only
  set valid := [dr.equilibrium, dr.discount, dr.low].filter
    (fun t => decide (t < entryLow)) with hv
  set valid' := (if valid.isEmpty then [entryLow - (stopLoss - entryLow) * 2]
    else valid) with hv'
  have hne : valid' ≠ [] := by
    rw [hv']
    split
    · simp
    · rename_i hvne
      simpa [List.isEmpty_iff] using hvne
  have hall : ∀ x ∈ valid', x < entryLow := by
    rw [hv']
    split
    · intro x hx
      simp only [List.mem_singleton] at hx
      subst hx
      linarith
    · intro x hx
      rw [hv] at hx
      have := (List.mem_filter.1 hx).2
      simpa using this
  have hS : (List.insertionSort qDesc valid').Chain' (fun a b => b ≤ a) :=
    ((List.sorted_insertionSort qDesc valid').chain').imp (fun a b hab => hab)
  have hSne : List.insertionSort qDesc valid' ≠ [] := by
    intro h
    have hp := List.perm_insertionSort qDesc valid'
    rw [h] at hp
    exact hne hp.symm.eq_nil
  have hSall : ∀ x ∈ List.insertionSort qDesc valid', x < entryLow :=
    fun x hx => hall x ((List.perm_insertionSort qDesc valid').mem_iff.1 hx)
  exact padLoop_down_facts 3 _ entryLow hSne (by omega) hS hSall

/-- A selected long FVG comes from the combined or intraday FVG list. -/
theorem longSelection_mem (cp : ℚ) (dr : DealingRange) (fvgs intra : List FVG)
    (f : FVG) (h : (longSelection cp dr fvgs intra).1 = some f) :
    f ∈ fvgs ∨ f ∈ intra := by
  unfold longSelection at h
  dsimp only at h
  split_ifs at h <;> dsimp only at h <;>
    first
      | exact Or.inl (List.mem_of_mem_filter (List.mem_of_mem_filter (maxByHigh_mem _ f h)))
      | exact Or.inl (List.mem_of_mem_filter (maxByHigh_mem _ f h))
      | exact Or.inr (List.mem_of_mem_filter (maxByHigh_mem _ f h))

/-- A selected short FVG comes from the combined or intraday FVG list. -/
theorem shortSelection_mem (cp : ℚ) (dr : DealingRange) (fvgs intra : List FVG)
    (f : FVG) (h : (shortSelection cp dr fvgs intra).1 = some f) :
    f ∈ fvgs ∨ f ∈ intra := by
  unfold shortSelection at h
  dsimp only at h
  split_ifs at h <;> dsimp only at h <;>
    first
      | exact Or.inl (List.mem_of_mem_filter (List.mem_of_mem_filter (minByLow_mem _ f h)))
      | exact Or.inl (List.mem_of_mem_filter (minByLow_mem _ f h))
      | exact Or.inr (List.mem_of_mem_filter (minByLow_mem _ f h))

/-- The long entry parameters always put the stop strictly below the entry
high, provided every input FVG has `low ≤ high`. -/
theorem longEntryParams_risk (cp : ℚ) (dr : DealingRange) (fvgs intra : List FVG)
    (hfv : ∀ f ∈ fvgs, f.low ≤ f.high) (hintra : ∀ f ∈ intra, f.low ≤ f.high) :
    (longEntryParams cp dr fvgs intra).1.2.2.1 < (longEntryParams cp dr fvgs intra).1.1 := by
  unfold longEntryParams
  dsimp only
  have hhalf : (0 : ℚ) < mkRat 5 2 := by norm_num [Rat.mkRat_eq_divInt]
  cases hS : (longSelection cp dr fvgs intra).1 with
  | some f =>
    dsimp only
    have hf : f.low ≤ f.high := by
      rcases longSelection_mem cp dr fvgs intra f hS with hm | hm
      · exact hfv f hm
      · exact hintra f hm
    linarith
  | none =>
    dsimp only
    split <;> dsimp only <;> linarith

/-- The short entry parameters always put the stop strictly above the entry
low, provided every input FVG has `low ≤ high`. -/
theorem shortEntryParams_risk (cp : ℚ) (dr : DealingRange) (fvgs intra : List FVG)
    (hfv : ∀ f ∈ fvgs, f.low ≤ f.high) (hintra : ∀ f ∈ intra, f.low ≤ f.high) :
    (shortEntryParams cp dr fvgs intra).1.2.1 < (shortEntryParams cp dr fvgs intra).1.2.2.1 := by
  unfold shortEntryParams
  dsimp only
  have hhalf : (0 : ℚ) < mkRat 5 2 := by norm_num [Rat.mkRat_eq_divInt]
  cases hS : (shortSelection cp dr fvgs intra).1 with
  | some f =>
    dsimp only
    have hf : f.low ≤ f.high := by
      rcases shortSelection_mem cp dr fvgs intra f hS with hm | hm
      · exact hfv f hm
      · exact hintra f hm
    linarith
  | none =>
    dsimp only
    split <;> dsimp only <;> linarith

/-- C3, amended: for inputs whose FVGs all satisfy `low ≤ high` (as the
detector guarantees), every scenario has a targets list of at least 3 prices
that is non-decreasing (long) / non-increasing (short), with every returned
target ≥ the returned `entry_zone.high` for a long scenario and ≤ the
returned `entry_zone.low` for a short one.  Strict ordering and strict
separation from the entry hold before the final 2-decimal rounding but can
collapse to equality in the returned values (see the counterexample). -/
theorem scenario_targets_spec (cp : ℚ) (dr : DealingRange) (fvgs intra : List FVG)
    (hfv : ∀ f ∈ fvgs, f.low ≤ f.high) (hintra : ∀ f ∈ intra, f.low ≤ f.high) :
    (3 ≤ (buildLongScenario cp dr fvgs intra).targets.length ∧
      (buildLongScenario cp dr fvgs intra).targets.Chain' (· ≤ ·) ∧
      ∀ t ∈ (buildLongScenario cp dr fvgs intra).targets,
        (buildLongScenario cp dr fvgs intra).entry_high ≤ t) ∧
    (3 ≤ (buildShortScenario cp dr fvgs intra).targets.length ∧
      (buildShortScenario cp dr fvgs intra).targets.Chain' (fun a b => b ≤ a) ∧
      ∀ t ∈ (buildShortScenario cp dr fvgs intra).targets,
        t ≤ (buildShortScenario cp dr fvgs intra).entry_low) := by
  constructor
  · have hrisk := longEntryParams_risk cp dr fvgs intra hfv hintra
    obtain ⟨hL, hC, hgt⟩ := longTargets_facts dr
      (longEntryParams cp dr fvgs intra).1.1
      (longEntryParams cp dr fvgs intra).1.2.2.1 hrisk
    have htg : (buildLongScenario cp dr fvgs intra).targets =
        (longTargets dr (longEntryParams cp dr fvgs intra).1.1
          (longEntryParams cp dr fvgs intra).1.2.2.1).map round2 := rfl
    have heh : (buildLongScenario cp dr fvgs intra).entry_high =
        round2 (longEntryParams cp dr fvgs intra).1.1 := rfl
    rw [htg, heh]
    refine ⟨by simpa using hL, ?_, ?_⟩
    · rw [List.chain'_map]
      exact hC.imp (fun a b hab => round2_mono hab)
    · intro t ht
      rw [List.mem_map] at ht
      obtain ⟨x, hx, rfl⟩ := ht
      exact round2_mono (le_of_lt (hgt x hx))
  · have hrisk := shortEntryParams_risk cp dr fvgs intra hfv hintra
    obtain ⟨hL, hC, hgt⟩ := shortTargets_facts dr
      (shortEntryParams cp dr fvgs intra).1.2.1
      (shortEntryParams cp dr fvgs intra).1.2.2.1 hrisk
    have htg : (buildShortScenario cp dr fvgs intra).targets =
        (shortTargets dr (shortEntryParams cp dr fvgs intra).1.2.1
          (shortEntryParams cp dr fvgs intra).1.2.2.1).map round2 := rfl
    have hel : (buildShortScenario cp dr fvgs intra).entry_low =
        round2 (shortEntryParams cp dr fvgs intra).1.2.1 := rfl
    rw [htg, hel]
    refine ⟨by simpa using hL, ?_, ?_⟩
    · rw [List.chain'_map]
      exact hC.imp (fun a b hab => round2_mono hab)
    · intro t ht
      rw [List.mem_map] at ht
      obtain ⟨x, hx, rfl⟩ := ht
      exact round2_mono (le_of_lt (hgt x hx))

unseal Rat.add Rat.sub Rat.mul Rat.inv in
/-- C3, counterexample: with the non-degenerate dealing range built from
`high = 100.01`, `low = 100`, current price `100.002` and one unreachable
bullish FVG (market-execution fallback), the returned long targets are
`[100.0, 100.01, 100.01]` after the 2-decimal rounding: not strictly
ordered, and the first target equals `entry_zone.high = 100.0` instead of
lying strictly above it. -/
theorem scenario_targets_not_strict :
    (buildLongScenario (mkRat 100002 1000) (dealingRangeZones (mkRat 10001 100) 100)
        [⟨90, 89, 1, "bullish", false, false, false⟩] []).targets
      = [100, mkRat 10001 100, mkRat 10001 100] ∧
    ¬ ((buildLongScenario (mkRat 100002 1000) (dealingRangeZones (mkRat 10001 100) 100)
          [⟨90, 89, 1, "bullish", false, false, false⟩] []).targets.getD 1 0 <
        (buildLongScenario (mkRat 100002 1000) (dealingRangeZones (mkRat 10001 100) 100)
          [⟨90, 89, 1, "bullish", false, false, false⟩] []).targets.getD 2 0) ∧
    (buildLongScenario (mkRat 100002 1000) (dealingRangeZones (mkRat 10001 100) 100)
        [⟨90, 89, 1, "bullish", false, false, false⟩] []).entry_high = 100 ∧
    (dealingRangeZones (mkRat 10001 100) 100).low <
      (dealingRangeZones (mkRat 10001 100) 100).high := by
  refine ⟨by decide, by decide, by decide, by decide⟩

/-- C3, witness: the amended theorem applied to the Example-2 dealing range
with no FVGs (math fallback on both sides). -/
theorem scenario_targets_spec_witness :
    (3 ≤ (buildLongScenario 105 (dealingRangeZones 110 100) [] []).targets.length ∧
      (buildLongScenario 105 (dealingRangeZones 110 100) [] []).targets.Chain' (· ≤ ·) ∧
      ∀ t ∈ (buildLongScenario 105 (dealingRangeZones 110 100) [] []).targets,
        (buildLongScenario 105 (dealingRangeZones 110 100) [] []).entry_high ≤ t) ∧
    (3 ≤ (buildShortScenario 105 (dealingRangeZones 110 100) [] []).targets.length ∧
      (buildShortScenario 105 (dealingRangeZones 110 100) [] []).targets.Chain'
        (fun a b => b ≤ a) ∧
      ∀ t ∈ (buildShortScenario 105 (dealingRangeZones 110 100) [] []).targets,
        t ≤ (buildShortScenario 105 (dealingRangeZones 110 100) [] []).entry_low) :=
  scenario_targets_spec 105 (dealingRangeZones 110 100) [] [] (by simp) (by simp)

end Proofs
